import Mathlib

/-!
Verification development for the Boundless-DAS alignment-search repository
(`run_alignment.py`, `trainer.py`, `tasks/continent_matching.py`).

The development shallowly embeds the parts of the code the claims are about:

* an exact-rational model of the bfloat16 cast applied to the temperature
  schedule (`torch.linspace(50.0, 0.1, T).to(torch.bfloat16)`),
* a trace semantics of `AlpacaAligner.train` (which steps log, evaluate,
  save checkpoints, call backward / optimizer.step / scheduler.step /
  zero_grad / set_temperature),
* the accuracy computations of `prealign_eval` and `compute_metrics`,
* the `__main__` control flow of `run_alignment.py` (skip-on-existing
  checkpoint, run-name construction),
* the example encoding and the buggy samplers of
  `tasks/continent_matching.py` (unbound names are modelled by explicit
  lookup in the list of names the function actually binds).

Machine floats are modelled over `ℚ`: the bfloat16 cast is exact
round-to-nearest-even with an 8-bit significand (the float32 representation
of intermediate `linspace` values is not modelled; the endpoints of
`torch.linspace` are exact, and rounding is monotone, so the properties
proved here are insensitive to that).  Fallible Python code (division by
zero, unbound names, missing dict keys) returns `Except`.
-/

namespace AlignTransformers

/-- Python-level runtime errors that the embedded code can raise. -/
inductive PyErr where
  | nameErr (n : String)
  | keyErr (k : String)
  | zeroDivisionErr
  deriving DecidableEq, Repr

/-! ## Exact model of round-to-nearest-even and the bfloat16 cast -/

/-- Round a rational to the nearest integer, ties to even: the rounding used
by IEEE-754 casts (and by Python's round builtin on exact halves). -/
def rne (x : ℚ) : ℤ :=
  if x - ⌊x⌋ < 1/2 then ⌊x⌋
  else if 1/2 < x - ⌊x⌋ then ⌊x⌋ + 1
  else if ⌊x⌋ % 2 = 0 then ⌊x⌋ else ⌊x⌋ + 1

theorem floor_le_rne (x : ℚ) : ⌊x⌋ ≤ rne x := by
  unfold rne
  split_ifs <;> omega

theorem rne_le_floor_add_one (x : ℚ) : rne x ≤ ⌊x⌋ + 1 := by
  unfold rne
  split_ifs <;> omega

theorem sub_half_le_rne (x : ℚ) : x - 1/2 ≤ (rne x : ℚ) := by
  have h1 : (⌊x⌋ : ℚ) ≤ x := Int.floor_le x
  have h2 : x < ⌊x⌋ + 1 := Int.lt_floor_add_one x
  unfold rne
  split_ifs <;> first | linarith | (push_cast ; linarith)

theorem rne_le_add_half (x : ℚ) : (rne x : ℚ) ≤ x + 1/2 := by
  have h1 : (⌊x⌋ : ℚ) ≤ x := Int.floor_le x
  have h2 : x < ⌊x⌋ + 1 := Int.lt_floor_add_one x
  unfold rne
  split_ifs <;> first | linarith | (push_cast ; linarith)

theorem rne_mono {x y : ℚ} (h : x ≤ y) : rne x ≤ rne y := by
  have hf : ⌊x⌋ ≤ ⌊y⌋ := Int.floor_mono h
  rcases eq_or_lt_of_le hf with heq | hlt
  · have hxy : x - ⌊x⌋ ≤ y - ⌊y⌋ := by
      rw [← heq]; linarith
    unfold rne
    rw [← heq]
    split_ifs <;> first | omega | linarith
  · calc rne x ≤ ⌊x⌋ + 1 := rne_le_floor_add_one x
    _ ≤ ⌊y⌋ := by omega
    _ ≤ rne y := floor_le_rne y

/-- Fuel-bounded upward search for the binary exponent: starting from
exponent e with 2 ^ e ≤ q, climb until q < 2 ^ (e + 1). -/
def upExp : ℕ → ℚ → ℤ → ℤ
  | 0, _, e => e
  | f + 1, q, e => if q < 2 ^ (e + 1) then e else upExp f q (e + 1)

/-- Fuel-bounded downward search for the binary exponent: starting from
exponent e with q < 2 ^ (e + 1), descend until 2 ^ e ≤ q. -/
def downExp : ℕ → ℚ → ℤ → ℤ
  | 0, _, e => e
  | f + 1, q, e => if 2 ^ e ≤ q then e else downExp f q (e - 1)

theorem upExp_lower {q : ℚ} : ∀ (f : ℕ) (e : ℤ), (2:ℚ) ^ e ≤ q → (2:ℚ) ^ upExp f q e ≤ q := by
  intro f
  induction f with
  | zero => intro e he; simpa [upExp] using he
  | succ n ih =>
    intro e he
    rw [upExp]
    split_ifs with hc
    · exact he
    · exact ih (e + 1) (le_of_not_lt hc)

theorem upExp_upper {q : ℚ} : ∀ (f : ℕ) (e : ℤ), q < (2:ℚ) ^ (e + f) → q < (2:ℚ) ^ (upExp f q e + 1) := by
  intro f
  induction f with
  | zero =>
    intro e he
    rw [upExp]
    have he' : q < (2:ℚ) ^ e := by simpa using he
    have h2 : (2:ℚ) ^ e ≤ 2 ^ (e + 1) :=
      zpow_le_zpow_right₀ (by norm_num) (by omega)
    linarith
  | succ n ih =>
    intro e he
    rw [upExp]
    split_ifs with hc
    · exact hc
    · refine ih (e + 1) ?_
      have : e + (n + 1 : ℕ) = (e + 1) + (n : ℕ) := by push_cast; ring
      rw [this] at he
      exact he

theorem downExp_upper {q : ℚ} : ∀ (f : ℕ) (e : ℤ), q < (2:ℚ) ^ (e + 1) → q < (2:ℚ) ^ (downExp f q e + 1) := by
  intro f
  induction f with
  | zero => intro e he; simpa [downExp] using he
  | succ n ih =>
    intro e he
    rw [downExp]
    split_ifs with hc
    · exact he
    · refine ih (e - 1) ?_
      have hlt : q < (2:ℚ) ^ e := lt_of_not_le hc
      have : e - 1 + 1 = e := by ring
      rw [this]
      exact hlt

theorem downExp_lower {q : ℚ} : ∀ (f : ℕ) (e : ℤ), (2:ℚ) ^ (e - f) ≤ q → (2:ℚ) ^ downExp f q e ≤ q := by
  intro f
  induction f with
  | zero =>
    intro e he
    rw [downExp]
    simpa using he
  | succ n ih =>
    intro e he
    rw [downExp]
    split_ifs with hc
    · exact hc
    · refine ih (e - 1) ?_
      have : e - (n + 1 : ℕ) = (e - 1) - (n : ℕ) := by push_cast; ring
      rw [this] at he
      exact he

/-- Binary exponent of a rational: the unique e with 2 ^ e ≤ q < 2 ^ (e+1)
for q > 0, computed by fuel-bounded search. -/
def qexp (q : ℚ) : ℤ :=
  if 1 ≤ q then upExp (q.num.natAbs + 1) q 0 else downExp (q.den + 1) q 0

theorem qexp_le {q : ℚ} (hq : 0 < q) : (2:ℚ) ^ qexp q ≤ q := by
  unfold qexp
  split_ifs with h1
  · exact upExp_lower _ 0 (by simpa using h1)
  · refine downExp_lower _ 0 ?_
    have hnum : (1 : ℤ) ≤ q.num := Rat.num_pos.mpr hq
    have hden : (0 : ℚ) < (q.den : ℚ) := by
      exact_mod_cast q.den_pos
    have hq1 : 1 / (q.den : ℚ) ≤ q := by
      have hgc : (1:ℚ) / (q.den : ℚ) ≤ (q.num : ℚ) / (q.den : ℚ) := by
        gcongr
        exact_mod_cast hnum
      rwa [Rat.num_div_den] at hgc
    have hpow : (q.den : ℚ) ≤ 2 ^ (q.den : ℕ) := by
      exact_mod_cast (Nat.lt_two_pow q.den).le
    have h2 : (2:ℚ) ^ ((0:ℤ) - (q.den + 1 : ℕ)) ≤ 1 / (q.den : ℚ) := by
      rw [zero_sub, zpow_neg, ← one_div]
      apply one_div_le_one_div_of_le hden
      calc (q.den : ℚ) ≤ 2 ^ (q.den : ℕ) := hpow
      _ ≤ 2 ^ ((q.den + 1 : ℕ) : ℤ) := by
          rw [← zpow_natCast]
          exact zpow_le_zpow_right₀ (by norm_num) (by push_cast; omega)
    exact h2.trans hq1

theorem lt_qexp_add_one {q : ℚ} (hq : 0 < q) : q < (2:ℚ) ^ (qexp q + 1) := by
  unfold qexp
  split_ifs with h1
  · refine upExp_upper _ 0 ?_
    have hnum : (0 : ℤ) ≤ q.num := le_of_lt (Rat.num_pos.mpr hq)
    have hden : (1 : ℚ) ≤ (q.den : ℚ) := by
      exact_mod_cast q.den_pos
    have hqnum : q ≤ (q.num : ℚ) := by
      have hds : (q.num : ℚ) / (q.den : ℚ) ≤ (q.num : ℚ) :=
        div_le_self (by exact_mod_cast hnum) hden
      rwa [Rat.num_div_den] at hds
    have hcast : ((q.num.natAbs : ℕ) : ℚ) = (q.num : ℚ) := by
      rw [Int.cast_natAbs]
      exact_mod_cast abs_of_nonneg hnum
    have hpow : (q.num.natAbs : ℚ) < 2 ^ (q.num.natAbs : ℕ) := by
      exact_mod_cast Nat.lt_two_pow q.num.natAbs
    calc q ≤ (q.num.natAbs : ℚ) := by rw [hcast]; exact hqnum
    _ < 2 ^ (q.num.natAbs : ℕ) := hpow
    _ ≤ (2:ℚ) ^ ((0:ℤ) + (q.num.natAbs + 1 : ℕ)) := by
        rw [← zpow_natCast]
        exact zpow_le_zpow_right₀ (by norm_num) (by push_cast; omega)
  · refine downExp_upper _ 0 ?_
    have : q < 1 := lt_of_not_le h1
    calc q < 1 := this
    _ ≤ (2:ℚ) ^ ((0:ℤ) + 1) := by norm_num

theorem qexp_mono {x y : ℚ} (hx : 0 < x) (hxy : x ≤ y) : qexp x ≤ qexp y := by
  by_contra hlt
  have h : qexp y + 1 ≤ qexp x := by omega
  have h1 : y < (2:ℚ) ^ (qexp y + 1) := lt_qexp_add_one (lt_of_lt_of_le hx hxy)
  have h2 : (2:ℚ) ^ (qexp y + 1) ≤ 2 ^ qexp x :=
    zpow_le_zpow_right₀ (by norm_num) h
  have h3 : (2:ℚ) ^ qexp x ≤ x := qexp_le hx
  linarith

/-- Exact value of the bfloat16 cast of a positive rational (normal range):
round the 8-bit significand to nearest, ties to even.  Non-positive inputs
map to 0 (the schedule only ever casts values in (0, 50]). -/
def toBF16 (q : ℚ) : ℚ :=
  if 0 < q then
    ((rne (q * 2 ^ (7 - qexp q)) : ℤ) : ℚ) * 2 ^ (qexp q - 7)
  else 0

theorem toBF16_nonneg (q : ℚ) : 0 ≤ toBF16 q := by
  unfold toBF16
  split_ifs with hq
  · have he := qexp_le hq
    have hp : (0:ℚ) < 2 ^ (7 - qexp q) := zpow_pos (by norm_num) _
    have hge : (2:ℚ) ^ qexp q * 2 ^ (7 - qexp q) ≤ q * 2 ^ (7 - qexp q) :=
      mul_le_mul_of_nonneg_right he hp.le
    have h128 : (2:ℚ) ^ qexp q * 2 ^ (7 - qexp q) = 2 ^ (7:ℤ) := by
      rw [← zpow_add₀ (by norm_num : (2:ℚ) ≠ 0)]
      ring_nf
    have hlow : (127 : ℚ) ≤ q * 2 ^ (7 - qexp q) := by
      rw [h128] at hge
      norm_num at hge
      linarith
    have hr : (126 : ℚ) ≤ (rne (q * 2 ^ (7 - qexp q)) : ℚ) := by
      have := sub_half_le_rne (q * 2 ^ (7 - qexp q))
      linarith
    have : (0:ℚ) ≤ (rne (q * 2 ^ (7 - qexp q)) : ℚ) := by linarith
    exact mul_nonneg this (zpow_pos (by norm_num : (0:ℚ) < 2) _).le
  · exact le_refl 0

theorem toBF16_le_upper {q : ℚ} (hq : 0 < q) : toBF16 q ≤ (2:ℚ) ^ (qexp q + 1) := by
  unfold toBF16
  rw [if_pos hq]
  have hup : q < (2:ℚ) ^ (qexp q + 1) := lt_qexp_add_one hq
  have hp : (0:ℚ) < 2 ^ (7 - qexp q) := zpow_pos (by norm_num) _
  have h1 : q * 2 ^ (7 - qexp q) < (2:ℚ) ^ (qexp q + 1) * 2 ^ (7 - qexp q) :=
    mul_lt_mul_of_pos_right hup hp
  have h256 : (2:ℚ) ^ (qexp q + 1) * 2 ^ (7 - qexp q) = 2 ^ (8:ℤ) := by
    rw [← zpow_add₀ (by norm_num : (2:ℚ) ≠ 0)]
    ring_nf
  have h2 : (rne (q * 2 ^ (7 - qexp q)) : ℚ) ≤ 256 + 1/2 := by
    have := rne_le_add_half (q * 2 ^ (7 - qexp q))
    rw [h256] at h1
    norm_num at h1
    linarith
  have h3 : rne (q * 2 ^ (7 - qexp q)) ≤ 256 := by
    have : (rne (q * 2 ^ (7 - qexp q)) : ℚ) < 257 := by linarith
    exact_mod_cast Int.lt_add_one_iff.mp (by exact_mod_cast this)
  have h4 : ((rne (q * 2 ^ (7 - qexp q)) : ℤ) : ℚ) ≤ 256 := by exact_mod_cast h3
  calc ((rne (q * 2 ^ (7 - qexp q)) : ℤ) : ℚ) * 2 ^ (qexp q - 7)
      ≤ 256 * 2 ^ (qexp q - 7) :=
        mul_le_mul_of_nonneg_right h4 (zpow_pos (by norm_num : (0:ℚ) < 2) _).le
  _ = 2 ^ (qexp q + 1) := by
      have : (256 : ℚ) = 2 ^ (8:ℤ) := by norm_num
      rw [this, ← zpow_add₀ (by norm_num : (2:ℚ) ≠ 0)]
      ring_nf

theorem lower_le_toBF16 {q : ℚ} (hq : 0 < q) : (2:ℚ) ^ qexp q ≤ toBF16 q := by
  unfold toBF16
  rw [if_pos hq]
  have he := qexp_le hq
  have hp : (0:ℚ) < 2 ^ (7 - qexp q) := zpow_pos (by norm_num) _
  have hge : (2:ℚ) ^ qexp q * 2 ^ (7 - qexp q) ≤ q * 2 ^ (7 - qexp q) :=
    mul_le_mul_of_nonneg_right he hp.le
  have h128 : (2:ℚ) ^ qexp q * 2 ^ (7 - qexp q) = 2 ^ (7:ℤ) := by
    rw [← zpow_add₀ (by norm_num : (2:ℚ) ≠ 0)]
    ring_nf
  have hlow : (128 : ℚ) ≤ q * 2 ^ (7 - qexp q) := by
    rw [h128] at hge
    norm_num at hge
    linarith
  have h1 : (128 : ℚ) - 1/2 ≤ (rne (q * 2 ^ (7 - qexp q)) : ℚ) := by
    have := sub_half_le_rne (q * 2 ^ (7 - qexp q))
    linarith
  have h2 : (128 : ℤ) ≤ rne (q * 2 ^ (7 - qexp q)) := by
    have : (255 : ℚ) ≤ 2 * (rne (q * 2 ^ (7 - qexp q)) : ℚ) := by linarith
    have h255 : (255 : ℤ) ≤ 2 * rne (q * 2 ^ (7 - qexp q)) := by exact_mod_cast this
    omega
  have h3 : (128 : ℚ) ≤ ((rne (q * 2 ^ (7 - qexp q)) : ℤ) : ℚ) := by exact_mod_cast h2
  calc (2:ℚ) ^ qexp q = 128 * 2 ^ (qexp q - 7) := by
        have : (128 : ℚ) = 2 ^ (7:ℤ) := by norm_num
        rw [this, ← zpow_add₀ (by norm_num : (2:ℚ) ≠ 0)]
        ring_nf
  _ ≤ ((rne (q * 2 ^ (7 - qexp q)) : ℤ) : ℚ) * 2 ^ (qexp q - 7) :=
        mul_le_mul_of_nonneg_right h3 (zpow_pos (by norm_num : (0:ℚ) < 2) _).le

theorem toBF16_mono {x y : ℚ} (h : x ≤ y) : toBF16 x ≤ toBF16 y := by
  by_cases hx : 0 < x
  · have hy : 0 < y := lt_of_lt_of_le hx h
    have hexp := qexp_mono hx h
    rcases eq_or_lt_of_le hexp with heq | hlt
    · unfold toBF16
      rw [if_pos hx, if_pos hy, ← heq]
      have hp : (0:ℚ) < 2 ^ (7 - qexp x) := zpow_pos (by norm_num) _
      have h1 : x * 2 ^ (7 - qexp x) ≤ y * 2 ^ (7 - qexp x) :=
        mul_le_mul_of_nonneg_right h hp.le
      have h2 : rne (x * 2 ^ (7 - qexp x)) ≤ rne (y * 2 ^ (7 - qexp x)) := rne_mono h1
      have h3 : ((rne (x * 2 ^ (7 - qexp x)) : ℤ) : ℚ) ≤ ((rne (y * 2 ^ (7 - qexp x)) : ℤ) : ℚ) := by
        exact_mod_cast h2
      exact mul_le_mul_of_nonneg_right h3 (zpow_pos (by norm_num : (0:ℚ) < 2) _).le
    · calc toBF16 x ≤ (2:ℚ) ^ (qexp x + 1) := toBF16_le_upper hx
      _ ≤ (2:ℚ) ^ qexp y := zpow_le_zpow_right₀ (by norm_num) (by omega)
      _ ≤ toBF16 y := lower_le_toBF16 hy
  · have hx0 : toBF16 x = 0 := by
      unfold toBF16
      rw [if_neg hx]
    rw [hx0]
    exact toBF16_nonneg y

theorem toBF16_fifty : toBF16 50 = 50 := by
  have h5 : qexp 50 = 5 := by
    norm_num [qexp, upExp]
  unfold toBF16
  rw [if_pos (by norm_num : (0:ℚ) < 50), h5]
  have : rne ((50:ℚ) * 2 ^ ((7:ℤ) - 5)) = 200 := by
    norm_num [rne, Int.floor_eq_iff]
  rw [this]
  norm_num

theorem toBF16_tenth : toBF16 (1/10) = 205 / 2048 := by
  have h4 : qexp (1/10) = -4 := by
    norm_num [qexp, downExp]
  unfold toBF16
  rw [if_pos (by norm_num : (0:ℚ) < 1/10), h4]
  have harg : (1/10 : ℚ) * 2 ^ ((7:ℤ) - -4) = 1024/5 := by norm_num
  rw [harg]
  have : rne ((1024:ℚ)/5) = 205 := by
    norm_num [rne, Int.floor_eq_iff]
  rw [this]
  norm_num

/-! ## Model of AlpacaAligner.train (trainer.py, lines 165-450)

The loop over epochs and batches is flattened into a single counter
total_step running from 0 to numBatches * epochs - 1, exactly as the code
increments it.  Each step emits a list of events; the mutable
best_eval_acc is threaded through.  devAcc t abstracts the (already
rounded) dev-set accuracy the periodic evaluation would measure at step t;
testAcc abstracts the final test accuracy. -/

structure TrainConfig where
  numBatches : ℕ
  epochs : ℕ
  logStep : ℕ
  validSteps : ℕ
  gradAccumSteps : ℕ
  isMaster : Bool
  devAcc : ℕ → ℚ
  testAcc : ℚ

/-- Value of target_total_step = len(train_dataloader) * int(epochs). -/
def totalSteps (cfg : TrainConfig) : ℕ := cfg.numBatches * cfg.epochs

/-- Exact value of torch.linspace(50.0, 0.1, T)[i] (the float32
representation of interior points is not modelled; both endpoints of
torch.linspace are exact). -/
def linspaceVal (T i : ℕ) : ℚ := 50 + (1/10 - 50) * i / ((T - 1 : ℕ) : ℚ)

/-- Entry i of temperature_schedule = torch.linspace(50.0, 0.1, T).to(torch.bfloat16). -/
def tempSchedule (T i : ℕ) : ℚ := toBF16 (linspaceVal T i)

/-- Temperature value the trainer pushes with index total_step = i. -/
def sched (cfg : TrainConfig) (i : ℕ) : ℚ := tempSchedule (totalSteps cfg) i

/-- Observable actions of one training run, in program order. -/
inductive TrainEvent where
  | logTrain (step : ℕ)
  | setEvalMode (step : ℕ)
  | evalPass (step : ℕ) (acc : ℚ)
  | saveBest (step : ℕ) (acc : ℚ)
  | setTrainMode (step : ℕ)
  | backwardAlign (step : ℕ)
  | optimStep (step : ℕ)
  | schedulerStep (step : ℕ)
  | zeroGrad (step : ℕ)
  | setTemp (step : ℕ) (value : ℚ)
  | finalTestEval (acc : ℚ)
  | saveLast
  deriving DecidableEq, Repr

/-- Guard of trainer.py line 253: if self.is_master and total_step % log_step == 0. -/
def qualLog (cfg : TrainConfig) (t : ℕ) : Bool :=
  cfg.isMaster && t % cfg.logStep == 0

/-- Guard of the periodic evaluation (line 286, nested inside the line-253
guard): total_step != 0 and total_step % valid_steps == 0. -/
def qualEval (cfg : TrainConfig) (t : ℕ) : Bool :=
  qualLog cfg t && t != 0 && t % cfg.validSteps == 0

/-- Guard of the update block (lines 366-368): total_step %
gradient_accumulation_steps == 0 and not (gradient_accumulation_steps > 1
and total_step == 0). -/
def qualUpdate (cfg : TrainConfig) (t : ℕ) : Bool :=
  t % cfg.gradAccumSteps == 0 && !(decide (1 < cfg.gradAccumSteps) && t == 0)

/-- Events of the periodic evaluation block (lines 286-357): eval mode,
full dev pass, best-checkpoint save on strict improvement, train mode. -/
def evalBlock (cfg : TrainConfig) (t : ℕ) (best : ℚ) : List TrainEvent × ℚ :=
  if qualEval cfg t then
    ([TrainEvent.setEvalMode t, TrainEvent.evalPass t (cfg.devAcc t)] ++
       (if best < cfg.devAcc t then
          (if cfg.isMaster then [TrainEvent.saveBest t (cfg.devAcc t)] else [])
        else []) ++
       [TrainEvent.setTrainMode t],
     if best < cfg.devAcc t then cfg.devAcc t else best)
  else ([], best)

/-- Events of the logging block (lines 253-359), which contains the
periodic evaluation. -/
def logBlock (cfg : TrainConfig) (t : ℕ) (best : ℚ) : List TrainEvent × ℚ :=
  if qualLog cfg t then
    (TrainEvent.logTrain t :: (evalBlock cfg t best).1, (evalBlock cfg t best).2)
  else ([], best)

/-- Events of the update block (lines 366-382): backward restricted to the
alignment parameters, optimizer step, scheduler step, zero_grad, and
set_temperature(temperature_schedule[total_step]). -/
def gradBlock (cfg : TrainConfig) (t : ℕ) : List TrainEvent :=
  if qualUpdate cfg t then
    [TrainEvent.backwardAlign t, TrainEvent.optimStep t, TrainEvent.schedulerStep t,
     TrainEvent.zeroGrad t, TrainEvent.setTemp t (sched cfg t)]
  else []

/-- Events of one iteration of the inner batch loop at total_step = t. -/
def stepEvents (cfg : TrainConfig) (t : ℕ) (best : ℚ) : List TrainEvent × ℚ :=
  ((logBlock cfg t best).1 ++ gradBlock cfg t, (logBlock cfg t best).2)

/-- Trace of n consecutive steps starting at total_step = t with current
best_eval_acc = best. -/
def trainSteps (cfg : TrainConfig) : ℕ → ℕ → ℚ → List TrainEvent
  | 0, _, _ => []
  | n + 1, t, best =>
    (stepEvents cfg t best).1 ++ trainSteps cfg n (t + 1) (stepEvents cfg t best).2

/-- Full trace of AlpacaAligner.train: the initial
set_temperature(temperature_schedule[0]) of line 203, the flattened batch
loop (best_eval_acc starts at -1, line 196), the end-of-training test
evaluation (lines 390-446) and the unconditional last-checkpoint save
(lines 449-450), both only on the master process. -/
def trainTrace (cfg : TrainConfig) : List TrainEvent :=
  TrainEvent.setTemp 0 (sched cfg 0) ::
    (trainSteps cfg (totalSteps cfg) 0 (-1) ++
      ((if cfg.isMaster then [TrainEvent.finalTestEval cfg.testAcc] else []) ++
       (if cfg.isMaster then [TrainEvent.saveLast] else [])))

/-- Temperature in effect during the forward pass of step t: line 203 sets
temperature_schedule[0] before the loop, and the update block of step t
overwrites it with temperature_schedule[t] only after step t's forward
and backward are done. -/
def tempDuring (cfg : TrainConfig) : ℕ → ℚ
  | 0 => sched cfg 0
  | t + 1 => if qualUpdate cfg t then sched cfg t else tempDuring cfg t

/-- Values pushed by set_temperature, in order. -/
def setTempValues (evs : List TrainEvent) : List ℚ :=
  evs.filterMap fun e =>
    match e with
    | TrainEvent.setTemp _ v => some v
    | _ => none

/-- Steps at which loss.backward is called. -/
def backwardSteps (evs : List TrainEvent) : List ℕ :=
  evs.filterMap fun e =>
    match e with
    | TrainEvent.backwardAlign t => some t
    | _ => none

/-- Steps at which a periodic dev-set evaluation pass runs. -/
def evalPassSteps (evs : List TrainEvent) : List ℕ :=
  evs.filterMap fun e =>
    match e with
    | TrainEvent.evalPass t _ => some t
    | _ => none

/-- One-step update of best_eval_acc as performed by lines 352-353. -/
def bestUpd (cfg : TrainConfig) (b : ℚ) (t : ℕ) : ℚ :=
  if qualEval cfg t then (if b < cfg.devAcc t then cfg.devAcc t else b) else b

/-- Value of best_eval_acc after the steps t0, ..., t0 + n - 1, starting
from b. -/
def runBest (cfg : TrainConfig) (t0 n : ℕ) (b : ℚ) : ℚ :=
  (List.range' t0 n).foldl (bestUpd cfg) b

theorem qualLog_of_qualEval {cfg : TrainConfig} {t : ℕ} (h : qualEval cfg t = true) :
    qualLog cfg t = true := by
  simp only [qualEval, Bool.and_eq_true] at h
  exact h.1.1

theorem isMaster_of_qualEval {cfg : TrainConfig} {t : ℕ} (h : qualEval cfg t = true) :
    cfg.isMaster = true := by
  have := qualLog_of_qualEval h
  simp only [qualLog, Bool.and_eq_true] at this
  exact this.1

theorem stepEvents_snd (cfg : TrainConfig) (t : ℕ) (b : ℚ) :
    (stepEvents cfg t b).2 = bestUpd cfg b t := by
  unfold stepEvents logBlock evalBlock bestUpd
  by_cases hl : qualLog cfg t
  · by_cases he : qualEval cfg t
    · simp [hl, he]
    · simp [hl, he]
  · have he : qualEval cfg t = false := by
      simp only [qualEval]
      simp [hl]
    simp [hl, he]

theorem mem_evalPass_stepEvents {cfg : TrainConfig} {t : ℕ} {b : ℚ} {s : ℕ} {a : ℚ} :
    TrainEvent.evalPass s a ∈ (stepEvents cfg t b).1 ↔
      (qualEval cfg t = true ∧ s = t ∧ a = cfg.devAcc t) := by
  unfold stepEvents logBlock evalBlock gradBlock
  by_cases hl : qualLog cfg t <;>
    by_cases he : qualEval cfg t <;>
    by_cases hb : b < cfg.devAcc t <;>
    by_cases hm : cfg.isMaster <;>
    by_cases hu : qualUpdate cfg t <;>
    first
      | exact absurd (qualLog_of_qualEval he) hl
      | simp [hl, he, hb, hm, hu]

theorem mem_saveBest_stepEvents {cfg : TrainConfig} {t : ℕ} {b : ℚ} {s : ℕ} {a : ℚ} :
    TrainEvent.saveBest s a ∈ (stepEvents cfg t b).1 ↔
      (qualEval cfg t = true ∧ s = t ∧ a = cfg.devAcc t ∧ b < cfg.devAcc t) := by
  unfold stepEvents logBlock evalBlock gradBlock
  by_cases hl : qualLog cfg t <;>
    by_cases he : qualEval cfg t <;>
    by_cases hb : b < cfg.devAcc t <;>
    by_cases hm : cfg.isMaster <;>
    by_cases hu : qualUpdate cfg t <;>
    first
      | exact absurd (qualLog_of_qualEval he) hl
      | exact absurd (isMaster_of_qualEval he) hm
      | simp [hl, he, hb, hm, hu]

theorem mem_evalPass_trainSteps {cfg : TrainConfig} {s : ℕ} {a : ℚ} :
    ∀ (n t0 : ℕ) (b : ℚ),
      TrainEvent.evalPass s a ∈ trainSteps cfg n t0 b ↔
        (t0 ≤ s ∧ s < t0 + n ∧ qualEval cfg s = true ∧ a = cfg.devAcc s) := by
  intro n
  induction n with
  | zero =>
    intro t0 b
    simp only [trainSteps, List.not_mem_nil, false_iff]
    rintro ⟨h1, h2, _, _⟩
    omega
  | succ m ih =>
    intro t0 b
    rw [trainSteps, List.mem_append, mem_evalPass_stepEvents, ih]
    constructor
    · rintro (⟨hq, rfl, ha⟩ | ⟨h1, h2, hq, ha⟩)
      · exact ⟨le_refl _, by omega, hq, ha⟩
      · exact ⟨by omega, by omega, hq, ha⟩
    · rintro ⟨h1, h2, hq, ha⟩
      by_cases hst : s = t0
      · exact Or.inl ⟨by rw [← hst]; exact hq, hst, by rw [← hst]; exact ha⟩
      · exact Or.inr ⟨by omega, by omega, hq, ha⟩

theorem runBest_zero (cfg : TrainConfig) (t0 : ℕ) (b : ℚ) : runBest cfg t0 0 b = b := rfl

theorem runBest_succ_left (cfg : TrainConfig) (t0 n : ℕ) (b : ℚ) :
    runBest cfg t0 (n + 1) b = runBest cfg (t0 + 1) n (bestUpd cfg b t0) := by
  unfold runBest
  rw [List.range'_succ]
  rfl

theorem mem_saveBest_trainSteps {cfg : TrainConfig} {s : ℕ} {a : ℚ} :
    ∀ (n t0 : ℕ) (b : ℚ),
      TrainEvent.saveBest s a ∈ trainSteps cfg n t0 b ↔
        (t0 ≤ s ∧ s < t0 + n ∧ qualEval cfg s = true ∧ a = cfg.devAcc s ∧
          runBest cfg t0 (s - t0) b < cfg.devAcc s) := by
  intro n
  induction n with
  | zero =>
    intro t0 b
    simp only [trainSteps, List.not_mem_nil, false_iff]
    rintro ⟨h1, h2, _, _, _⟩
    omega
  | succ m ih =>
    intro t0 b
    rw [trainSteps, List.mem_append, mem_saveBest_stepEvents, ih, stepEvents_snd]
    constructor
    · rintro (⟨hq, rfl, ha, hb⟩ | ⟨h1, h2, hq, ha, hb⟩)
      · refine ⟨le_refl _, by omega, hq, ha, ?_⟩
        rw [Nat.sub_self, runBest_zero]
        exact hb
      · refine ⟨by omega, by omega, hq, ha, ?_⟩
        have hformula : s - t0 = (s - (t0 + 1)) + 1 := by omega
        rw [hformula, runBest_succ_left]
        exact hb
    · rintro ⟨h1, h2, hq, ha, hb⟩
      by_cases hst : s = t0
      · subst hst
        rw [Nat.sub_self, runBest_zero] at hb
        exact Or.inl ⟨hq, rfl, ha, hb⟩
      · refine Or.inr ⟨by omega, by omega, hq, ha, ?_⟩
        have hformula : s - t0 = (s - (t0 + 1)) + 1 := by omega
        rw [hformula, runBest_succ_left] at hb
        exact hb

theorem setTempValues_stepEvents (cfg : TrainConfig) (t : ℕ) (b : ℚ) :
    setTempValues (stepEvents cfg t b).1 =
      if qualUpdate cfg t then [sched cfg t] else [] := by
  unfold stepEvents logBlock evalBlock gradBlock setTempValues
  by_cases hl : qualLog cfg t
  · by_cases he : qualEval cfg t
    · split_ifs <;> simp_all [List.filterMap_append]
    · split_ifs <;> simp_all [List.filterMap_append]
  · split_ifs <;> simp_all [List.filterMap_append]

theorem setTempValues_trainSteps (cfg : TrainConfig) :
    ∀ (n t0 : ℕ) (b : ℚ),
      setTempValues (trainSteps cfg n t0 b) =
        ((List.range' t0 n).filter (qualUpdate cfg)).map (sched cfg) := by
  intro n
  induction n with
  | zero =>
    intro t0 b
    simp [trainSteps, setTempValues]
  | succ m ih =>
    intro t0 b
    rw [trainSteps, List.range'_succ]
    have hsplit : setTempValues ((stepEvents cfg t0 b).1 ++
        trainSteps cfg m (t0 + 1) (stepEvents cfg t0 b).2) =
        setTempValues (stepEvents cfg t0 b).1 ++
          setTempValues (trainSteps cfg m (t0 + 1) (stepEvents cfg t0 b).2) := by
      unfold setTempValues
      rw [List.filterMap_append]
    rw [hsplit, setTempValues_stepEvents, ih]
    by_cases hu : qualUpdate cfg t0 <;> simp [hu]

theorem sublist_evalPass_setTrainMode {cfg : TrainConfig} {s : ℕ} {a : ℚ} :
    ∀ (n t0 : ℕ) (b : ℚ),
      TrainEvent.evalPass s a ∈ trainSteps cfg n t0 b →
        [TrainEvent.evalPass s a, TrainEvent.setTrainMode s].Sublist (trainSteps cfg n t0 b) := by
  intro n
  induction n with
  | zero =>
    intro t0 b hm
    simp [trainSteps] at hm
  | succ m ih =>
    intro t0 b hm
    rw [trainSteps] at hm ⊢
    rcases List.mem_append.mp hm with hstep | hrest
    · have hc := mem_evalPass_stepEvents.mp hstep
      obtain ⟨hq, rfl, ha⟩ := hc
      have hsub : [TrainEvent.evalPass s a, TrainEvent.setTrainMode s].Sublist
          (stepEvents cfg s b).1 := by
        unfold stepEvents logBlock evalBlock
        rw [if_pos (qualLog_of_qualEval hq), if_pos hq]
        refine List.Sublist.trans ?_ (List.sublist_append_left _ _)
        refine List.Sublist.cons _ ?_
        refine List.Sublist.cons _ ?_
        rw [ha]
        refine List.Sublist.cons₂ _ ?_
        exact List.sublist_append_right _ _
      exact hsub.trans (List.sublist_append_left _ _)
    · exact (ih _ _ hrest).trans (List.sublist_append_right _ _)

theorem mem_evalPass_trainTrace {cfg : TrainConfig} {s : ℕ} {a : ℚ} :
    TrainEvent.evalPass s a ∈ trainTrace cfg ↔
      (s < totalSteps cfg ∧ qualEval cfg s = true ∧ a = cfg.devAcc s) := by
  unfold trainTrace
  rw [List.mem_cons, List.mem_append, List.mem_append, mem_evalPass_trainSteps]
  constructor
  · rintro (h | ⟨h1, h2, hq, ha⟩ | h | h)
    · cases h
    · exact ⟨by omega, hq, ha⟩
    · revert h
      split_ifs <;> simp
    · revert h
      split_ifs <;> simp
  · rintro ⟨h1, hq, ha⟩
    exact Or.inr (Or.inl ⟨Nat.zero_le _, by omega, hq, ha⟩)

theorem mem_saveBest_trainTrace {cfg : TrainConfig} {s : ℕ} {a : ℚ} :
    TrainEvent.saveBest s a ∈ trainTrace cfg ↔
      (s < totalSteps cfg ∧ qualEval cfg s = true ∧ a = cfg.devAcc s ∧
        runBest cfg 0 s (-1) < cfg.devAcc s) := by
  unfold trainTrace
  rw [List.mem_cons, List.mem_append, List.mem_append, mem_saveBest_trainSteps]
  constructor
  · rintro (h | ⟨h1, h2, hq, ha, hb⟩ | h | h)
    · cases h
    · refine ⟨by omega, hq, ha, ?_⟩
      simpa using hb
    · revert h
      split_ifs <;> simp
    · revert h
      split_ifs <;> simp
  · rintro ⟨h1, hq, ha, hb⟩
    refine Or.inr (Or.inl ⟨Nat.zero_le _, by omega, hq, ha, ?_⟩)
    simpa using hb

theorem setTempValues_trainTrace (cfg : TrainConfig) :
    setTempValues (trainTrace cfg) =
      sched cfg 0 :: ((List.range' 0 (totalSteps cfg)).filter (qualUpdate cfg)).map (sched cfg) := by
  unfold trainTrace
  unfold setTempValues
  rw [List.filterMap_cons]
  simp only [List.filterMap_append]
  have h1 := setTempValues_trainSteps cfg (totalSteps cfg) 0 (-1)
  unfold setTempValues at h1
  rw [h1]
  cases hm : cfg.isMaster <;> simp [hm]

theorem linspaceVal_antitone {T : ℕ} (hT : 2 ≤ T) {i j : ℕ} (hij : i ≤ j) :
    linspaceVal T j ≤ linspaceVal T i := by
  unfold linspaceVal
  have hd : (0:ℚ) < ((T - 1 : ℕ) : ℚ) := by
    exact_mod_cast (by omega : 0 < T - 1)
  have hij' : (i:ℚ) ≤ (j:ℚ) := by exact_mod_cast hij
  have hc : (1/10 - 50 : ℚ) ≤ 0 := by norm_num
  have hnum : (1/10 - 50 : ℚ) * j ≤ (1/10 - 50) * i := mul_le_mul_of_nonpos_left hij' hc
  have := (div_le_div_iff_of_pos_right hd).mpr hnum
  linarith

theorem linspaceVal_last {T : ℕ} (hT : 2 ≤ T) : linspaceVal T (T - 1) = 1/10 := by
  unfold linspaceVal
  have hd : ((T - 1 : ℕ) : ℚ) ≠ 0 := by
    exact_mod_cast (by omega : T - 1 ≠ 0)
  rw [mul_div_assoc, div_self hd]
  norm_num

theorem sched_antitone (cfg : TrainConfig) (hT : 2 ≤ totalSteps cfg) {i j : ℕ} (hij : i ≤ j) :
    sched cfg j ≤ sched cfg i :=
  toBF16_mono (linspaceVal_antitone hT hij)

theorem sched_last (cfg : TrainConfig) (hT : 2 ≤ totalSteps cfg) :
    sched cfg (totalSteps cfg - 1) = toBF16 (1/10) := by
  unfold sched tempSchedule
  rw [linspaceVal_last hT]

theorem pushedTemps_chain (cfg : TrainConfig) (hT : 2 ≤ totalSteps cfg) :
    List.Chain' (fun x y => y ≤ x) (setTempValues (trainTrace cfg)) := by
  rw [setTempValues_trainTrace]
  have hpw : ((List.range' 0 (totalSteps cfg)).filter (qualUpdate cfg)).Pairwise (· ≤ ·) :=
    (List.pairwise_le_range' 0 (totalSteps cfg)).filter _
  have hmap : (((List.range' 0 (totalSteps cfg)).filter (qualUpdate cfg)).map
      (sched cfg)).Pairwise (fun x y => y ≤ x) :=
    hpw.map (sched cfg) (fun a b hab => sched_antitone cfg hT hab)
  refine List.chain'_cons'.mpr ⟨?_, hmap.chain'⟩
  intro y hy
  rw [List.head?_map] at hy
  cases hhead : ((List.range' 0 (totalSteps cfg)).filter (qualUpdate cfg)).head? with
  | none =>
    rw [hhead] at hy
    simp at hy
  | some i =>
    rw [hhead] at hy
    have hyi : sched cfg i = y := by simpa using hy
    rw [← hyi]
    exact sched_antitone cfg hT (Nat.zero_le i)

theorem pushedTemps_getLast (cfg : TrainConfig) (hT : 2 ≤ totalSteps cfg)
    (hg : cfg.gradAccumSteps = 1) :
    (setTempValues (trainTrace cfg)).getLast? = some (sched cfg (totalSteps cfg - 1)) := by
  rw [setTempValues_trainTrace]
  have hq : ∀ t, qualUpdate cfg t = true := by
    intro t
    simp [qualUpdate, hg, Nat.mod_one]
  have hfilter : (List.range' 0 (totalSteps cfg)).filter (qualUpdate cfg) =
      List.range' 0 (totalSteps cfg) :=
    List.filter_eq_self.mpr (fun a _ => hq a)
  rw [hfilter]
  obtain ⟨k, hk⟩ : ∃ k, totalSteps cfg = k + 1 := ⟨totalSteps cfg - 1, by omega⟩
  rw [hk, List.range'_1_concat, List.map_append]
  have hassoc : sched cfg 0 ::
      (List.map (sched cfg) (List.range' 0 k) ++ List.map (sched cfg) [0 + k]) =
      (sched cfg 0 :: List.map (sched cfg) (List.range' 0 k)) ++ [sched cfg (0 + k)] := rfl
  rw [hassoc, List.getLast?_concat]
  simp

/-! ## Accuracy computations (trainer.py prealign_eval, run_alignment.py compute_metrics) -/

/-- Model of Python round(q, 2).  Python rounds ties to even (modulo the
binary-float representation of q, which is not modelled); the claims
settled with this definition do not depend on the tie rule. -/
def roundTo2 (q : ℚ) : ℚ := ((rne (q * 100) : ℤ) : ℚ) / 100

/-- Totals accumulated by AlpacaAligner.prealign_eval (trainer.py lines
117-150): each element of batches is one batch as the list of its decoded
(target, prediction) pairs; a pair counts as correct when the two strings
agree case-insensitively.  Returns (correct_count, total_count). -/
def prealign_eval_counts (batches : List (List (String × String))) : ℕ × ℕ :=
  batches.foldl
    (fun acc batch =>
      (acc.1 + batch.countP (fun p => p.1.toLower == p.2.toLower), acc.2 + batch.length))
    (0, 0)

/-- Accuracy reported by prealign_eval (trainer.py line 151):
round(correct_count / total_count, 2).  The division raises
ZeroDivisionError when total_count = 0, modelled as an error value. -/
def prealign_eval_accuracy (batches : List (List (String × String))) : Except PyErr ℚ :=
  if (prealign_eval_counts batches).2 = 0 then Except.error PyErr.zeroDivisionErr
  else Except.ok
    (roundTo2 (((prealign_eval_counts batches).1 : ℚ) / ((prealign_eval_counts batches).2 : ℚ)))

/-- Accuracy over a flat list of (target, prediction) pairs with an
arbitrary per-pair match function, as computed by both
run_alignment.compute_metrics (exact token-id equality) and the
evaluation loops in trainer.py (case-insensitive decoded-string equality):
round(correct_count / total_count, 2), raising on an empty list. -/
def accuracy_of {α : Type} (matchFn : α → α → Bool) (pairs : List (α × α)) : Except PyErr ℚ :=
  if pairs.length = 0 then Except.error PyErr.zeroDivisionErr
  else Except.ok
    (roundTo2 (((pairs.countP fun p => matchFn p.1 p.2) : ℚ) / (pairs.length : ℚ)))

/-! ## Control flow of run_alignment.py __main__ (lines 194-303) -/

/-- Observable actions of the run_alignment.py entry point, in program
order, from the construction of run_name onward. -/
inductive RunEvent where
  | mkOutputDirs
  | skipQuit
  | saveDasConfig
  | loadModel
  | freezeNonAlignmentParams
  | buildOptimizer
  | constructAligner
  | prealignEvalRun
  | trainRun
  deriving DecidableEq, Repr

/-- Trace of run_alignment.py after run_name is built: create the output
directories (lines 201-206), then the skip check (lines 210-215: if
pytorch-rotate-last.bin exists under the run directory, log and quit()
before anything else happens); otherwise save das_config, load the model
(line 220), freeze every parameter whose name mentions neither
rotate_layer nor intervention_boundaries (lines 227-229), build optimizer
and scheduler, construct the Aligner, run the mandatory prealign_eval
(line 288), and train only when --do_align was passed (lines 291-303). -/
def run_alignment_main (last_checkpoint_exists do_align : Bool) : List RunEvent :=
  RunEvent.mkOutputDirs ::
    (if last_checkpoint_exists then [RunEvent.skipQuit]
     else
       [RunEvent.saveDasConfig, RunEvent.loadModel, RunEvent.freezeNonAlignmentParams,
        RunEvent.buildOptimizer, RunEvent.constructAligner, RunEvent.prealignEvalRun] ++
         (if do_align then [RunEvent.trainRun] else []))

/-! ## Run identity string (run_alignment.py lines 194-198) -/

/-- The CLI arguments that reach the run-name construction.  model_base_name
stands for os.path.basename(os.path.normpath(args.model_path)); the
remaining fields are the other CLI inputs, which must not influence the
run name. -/
structure CliArgs where
  model_base_name : String
  task_name : String
  seed : ℤ
  layer : ℤ
  token_start : ℤ
  token_end : ℤ
  lr : ℚ
  epochs : ℤ
  train_batch_size : ℤ
  eval_batch_size : ℤ
  log_step : ℤ
  valid_steps : ℤ
  gradient_accumulation_steps : ℤ
  n_training_examples : ℤ
  n_eval_examples : ℤ
  output_dir : String
  model_type : String
  is_wandb : Bool

/-- Fields of the das_config file that feed alignment_config. -/
structure DasConfigModel where
  das_layer : ℤ
  das_token_start : ℤ
  das_token_end : ℤ

/-- alignment_config['layer'] after the CLI override of line 54-55. -/
def resolved_layer (a : CliArgs) (d : DasConfigModel) : ℤ :=
  if 0 ≤ a.layer then a.layer else d.das_layer

/-- alignment_config['token_range'][0] after the CLI override of line 56-57. -/
def resolved_token_start (a : CliArgs) (d : DasConfigModel) : ℤ :=
  if 0 ≤ a.token_start then a.token_start else d.das_token_start

/-- alignment_config['token_range'][1] after the CLI override of line 58-59. -/
def resolved_token_end (a : CliArgs) (d : DasConfigModel) : ℤ :=
  if 0 ≤ a.token_end then a.token_end else d.das_token_end

/-- The f-string of run_alignment.py lines 196-198. -/
def run_name_of (model_base_name task_name : String)
    (seed layer token_start token_end : ℤ) : String :=
  "model:" ++ model_base_name ++ "_task:" ++ task_name ++ "_seed:" ++ toString seed ++
    "_intl:" ++ toString layer ++ "_intr:" ++ toString token_start ++ "," ++
    toString token_end

/-- run_name as the script computes it from the full inputs. -/
def run_name (a : CliArgs) (d : DasConfigModel) : String :=
  run_name_of a.model_base_name a.task_name a.seed (resolved_layer a d)
    (resolved_token_start a d) (resolved_token_end a d)

/-! ## ContinentMatchingTask (tasks/continent_matching.py)

Python name resolution is modelled explicitly: a reference to a name is a
lookup in the list of (name, value) pairs the function actually binds
(parameters and locals assigned before the reference; attribute access on
self is modelled by the task-data parameter, and module globals hold no
string variables).  An absent name is a NameError, exactly as in CPython. -/

def _YES_LABEL : String := "Yes"

def _NO_LABEL : String := "No"

/-- The instance state built by ContinentMatchingTask.__init__: the
country-to-continent dict and the derived lists. -/
structure ContinentData where
  country_to_continent : String → Option String
  continent_to_country : String → List String
  countries : List String
  continents : List String

/-- Resolution of a bare name against the bound string-valued locals. -/
def lookupName (env : List (String × String)) (n : String) : Except PyErr String :=
  match env.find? (fun p => p.1 == n) with
  | some p => Except.ok p.2
  | none => Except.error (PyErr.nameErr n)

/-- Python dict subscript: KeyError on a missing key. -/
def dictGet (d : String → Option String) (k : String) : Except PyErr String :=
  match d k with
  | some v => Except.ok v
  | none => Except.error (PyErr.keyErr k)

/-- ContinentMatchingTask._are_same_continent (lines 31-33).  The body is
self.country_to_continent[country1] == self.country_to_continent[countryt2],
evaluated left to right; countryt2 is not a bound name (the parameter is
spelled country2), so the second lookup is a NameError. -/
def _are_same_continent (data : ContinentData) (country1 country2 : String) :
    Except PyErr Bool := do
  let env := [("country1", country1), ("country2", country2)]
  let c1 ← dictGet data.country_to_continent country1
  let countryt2 ← lookupName env "countryt2"
  let c2 ← dictGet data.country_to_continent countryt2
  pure (c1 == c2)

/-- ContinentMatchingTask._sample_not_in_continent (lines 26-29), with
random.choice abstracted as the choice oracle. -/
def _sample_not_in_continent (data : ContinentData) (choice : List String → String)
    (continent : String) : Except PyErr String :=
  Except.ok (choice (data.continent_to_country
    (choice (data.continents.filter (fun c => c != continent)))))

/-- ContinentMatchingTask.continent1_source_sampler (lines 178-192).  Both
branches begin by reading base_continent2, which is bound neither as a
parameter nor as a local of this function (it is a local of the separate
alignment_example_sampler), so both branches raise NameError before any
sampling happens.  The dead remainder of each branch is still modelled
statement by statement. -/
def continent1_source_sampler (data : ContinentData) (choice : List String → String)
    (base_country1 base_country2 ctf_label_str : String) :
    Except PyErr (String × String × String) :=
  let env := [("base_country1", base_country1), ("base_country2", base_country2),
              ("ctf_label_str", ctf_label_str)]
  if ctf_label_str == _YES_LABEL then do
    let base_continent2 ← lookupName env "base_continent2"
    let source_country1 := choice (data.continent_to_country base_continent2)
    let source_country2 := choice data.countries
    let source_label ← _are_same_continent data source_country1 source_country2
    pure (source_country1, source_country2,
      if source_label then _YES_LABEL else _NO_LABEL)
  else do
    let base_continent2 ← lookupName env "base_continent2"
    let source_country1 ← _sample_not_in_continent data choice base_continent2
    let source_country2 := choice data.countries
    let source_label ← _are_same_continent data source_country1 source_country2
    pure (source_country1, source_country2,
      if source_label then _YES_LABEL else _NO_LABEL)

/-! ## Example encoding (tasks/continent_matching.py lines 97-162, 252-258) -/

/-- The tokenizer collaborator: raw tokenization, the pad token id, and
convert_tokens_to_ids for a single target token. -/
structure TokenizerModel where
  tokenize : String → List ℕ
  padTokenId : ℕ
  convertTokenToId : String → ℤ

/-- Hugging Face tokenizer call with padding='max_length', max_length=n and
padding_side='left' (set at tokenizer construction in run_alignment.py):
pad on the left up to n; longer inputs are returned unchanged (no
truncation is requested). -/
def hfPadMaxLength (tok : TokenizerModel) (n : ℕ) (s : String) : List ℕ :=
  List.replicate (n - (tok.tokenize s).length) tok.padTokenId ++ tok.tokenize s

/-- ContinentMatchingTask._encode_input_and_target (lines 103-112): encode
the input padded to length 40, build output_ids as a list of -100 of the
same length, and overwrite its last entry with
convert_tokens_to_ids(target_string).  _encode_examples (lines 135-162)
performs this identical computation inline for each example. -/
def _encode_input_and_target (tok : TokenizerModel) (input_string target_string : String) :
    List ℕ × List ℤ :=
  (hfPadMaxLength tok 40 input_string,
    (List.replicate (hfPadMaxLength tok 40 input_string).length (-100 : ℤ)).set
      ((hfPadMaxLength tok 40 input_string).length - 1)
      (tok.convertTokenToId target_string))

/-- The comprehension o[-1:] used for output_only_labels in
prepare_dataloader (lines 252-258, 287, 298, 309). -/
def output_only_labels (o : List ℤ) : List ℤ := o.drop (o.length - 1)

/-! ## Claim theorems -/

/-- Concrete run used to exhibit the misplaced backward call: 4 batches,
1 epoch, gradient_accumulation_steps = 2, non-master (logging off so the
trace shows only the update behaviour). -/
def cfgGradAccum : TrainConfig :=
  { numBatches := 4, epochs := 1, logStep := 1, validSteps := 1,
    gradAccumSteps := 2, isMaster := false, devAcc := fun _ => 0, testAcc := 0 }

/-- Concrete run exhibiting the eval-nested-in-logging behaviour:
log_step = 3, valid_steps = 2, 4 steps, master process;
gradient_accumulation_steps = 5 so the update block never fires. -/
def cfgEvalSkip : TrainConfig :=
  { numBatches := 4, epochs := 1, logStep := 3, validSteps := 2,
    gradAccumSteps := 5, isMaster := true, devAcc := fun _ => 1/2, testAcc := 1/2 }

/-- Concrete two-step run for the final-temperature counterexample. -/
def cfgTempFinal : TrainConfig :=
  { numBatches := 2, epochs := 1, logStep := 1, validSteps := 1,
    gradAccumSteps := 1, isMaster := false, devAcc := fun _ => 0, testAcc := 0 }

/-- Concrete master run used by witnesses: log_step = 1, valid_steps = 2,
5 steps, dev accuracy t/1 at step t so the periodic evaluations improve. -/
def cfgEvalW : TrainConfig :=
  { numBatches := 5, epochs := 1, logStep := 1, validSteps := 2,
    gradAccumSteps := 5, isMaster := true, devAcc := fun t => (t : ℚ), testAcc := 0 }

/-- Concrete three-step run with gradient_accumulation_steps = 1 used by
the temperature-schedule witness. -/
def cfgTempW : TrainConfig :=
  { numBatches := 3, epochs := 1, logStep := 1, validSteps := 1,
    gradAccumSteps := 1, isMaster := false, devAcc := fun _ => 0, testAcc := 0 }

/-- C1: the claim says every batch gets a backward pass and all N batches
of an accumulation window contribute to the window's update.  In the code
(trainer.py lines 363-384) loss.backward sits inside the
total_step % gradient_accumulation_steps == 0 block: in the concrete run
with gradient_accumulation_steps = 2 and 4 batches, backward runs only at
total_step = 2 (batch 0 is skipped by the accumulation guard and batches
1 and 3 are never backpropagated), so each update uses exactly one
batch's gradient. -/
theorem c1_backward_only_on_update_steps :
    cfgGradAccum.gradAccumSteps = 2 ∧ totalSteps cfgGradAccum = 4 ∧
      backwardSteps (trainTrace cfgGradAccum) = [2] := by
  refine ⟨rfl, rfl, ?_⟩
  norm_num [cfgGradAccum, trainTrace, trainSteps, stepEvents, logBlock, evalBlock,
    gradBlock, qualLog, qualEval, qualUpdate, totalSteps, backwardSteps, List.filterMap]

/-- C2 counterexample: in the run cfgEvalSkip, step 2 is a nonzero
multiple of valid_steps = 2 on the master process, yet no evaluation pass
happens anywhere in the trace, because 2 is not a multiple of
log_step = 3 and the evaluation block (trainer.py line 286) is nested
inside the logging guard of line 253. -/
theorem c2_eval_missed_counterexample :
    cfgEvalSkip.validSteps = 2 ∧ cfgEvalSkip.isMaster = true ∧
      (2 : ℕ) % cfgEvalSkip.validSteps = 0 ∧ (2 : ℕ) ≠ 0 ∧
      2 < totalSteps cfgEvalSkip ∧
      evalPassSteps (trainTrace cfgEvalSkip) = [] := by
  refine ⟨rfl, rfl, rfl, by norm_num, by norm_num [cfgEvalSkip, totalSteps], ?_⟩
  norm_num [cfgEvalSkip, trainTrace, trainSteps, stepEvents, logBlock, evalBlock,
    gradBlock, qualLog, qualEval, qualUpdate, totalSteps, evalPassSteps, List.filterMap]

/-- C2 amended: a periodic evaluation pass over the dev set runs at step t
exactly when t is a nonzero multiple of valid_steps that is also a
multiple of log_step, on the master process (and it reports the dev
accuracy measured at that step). -/
theorem c2_eval_exactly_at_log_and_valid_multiples (cfg : TrainConfig) (t : ℕ) (a : ℚ)
    (_hl : 0 < cfg.logStep) (_hv : 0 < cfg.validSteps) :
    TrainEvent.evalPass t a ∈ trainTrace cfg ↔
      (t < totalSteps cfg ∧ cfg.isMaster = true ∧ t % cfg.logStep = 0 ∧ t ≠ 0 ∧
        t % cfg.validSteps = 0 ∧ a = cfg.devAcc t) := by
  rw [mem_evalPass_trainTrace]
  have hq : qualEval cfg t = true ↔
      (cfg.isMaster = true ∧ t % cfg.logStep = 0 ∧ t ≠ 0 ∧ t % cfg.validSteps = 0) := by
    simp [qualEval, qualLog, and_assoc]
  rw [hq]
  tauto

/-- C2 witness: in cfgEvalW an evaluation pass does run at step 2 (a
nonzero multiple of valid_steps = 2 and of log_step = 1). -/
theorem c2_eval_witness :
    (0 < cfgEvalW.logStep ∧ 0 < cfgEvalW.validSteps) ∧
      (TrainEvent.evalPass 2 2 ∈ trainTrace cfgEvalW ↔
        (2 < totalSteps cfgEvalW ∧ cfgEvalW.isMaster = true ∧
          2 % cfgEvalW.logStep = 0 ∧ (2 : ℕ) ≠ 0 ∧ 2 % cfgEvalW.validSteps = 0 ∧
          (2 : ℚ) = cfgEvalW.devAcc 2)) := by
  refine ⟨⟨by norm_num [cfgEvalW], by norm_num [cfgEvalW]⟩, ?_⟩
  have h := c2_eval_exactly_at_log_and_valid_multiples cfgEvalW 2 2
    (by norm_num [cfgEvalW]) (by norm_num [cfgEvalW])
  simpa [cfgEvalW] using h

/-- C3 counterexample: in the two-step run cfgTempFinal with
gradient_accumulation_steps = 1, the temperature in effect during the
final training step's forward pass is still 50 (the value set at the end
of the previous step), not 0.1; moreover the bfloat16 cast made by
temperature_schedule = torch.linspace(50.0, 0.1, T).to(torch.bfloat16)
turns the endpoint 0.1 into 205/2048 = 0.10009765625, so not even the
value pushed at the final step equals 0.1 exactly. -/
theorem c3_final_temperature_counterexample :
    totalSteps cfgTempFinal = 2 ∧ cfgTempFinal.gradAccumSteps = 1 ∧
      tempDuring cfgTempFinal 1 = 50 ∧ (50 : ℚ) ≠ 1/10 ∧
      toBF16 (1/10) = 205/2048 ∧ (205/2048 : ℚ) ≠ 1/10 := by
  refine ⟨rfl, rfl, ?_, by norm_num, toBF16_tenth, by norm_num⟩
  norm_num [cfgTempFinal, tempDuring, qualUpdate, sched, tempSchedule, linspaceVal,
    totalSteps, toBF16_fifty]

/-- C3 amended: the temperature schedule is the bfloat16 cast of the
linear interpolation from 50.0 down to 0.1 over the total number of
training steps; the sequence of values pushed by set_temperature is
monotonically non-increasing, and when gradient_accumulation_steps = 1
the last pushed value (pushed at the end of the final step, after that
step's forward pass) is the bfloat16 rounding of 0.1, namely 205/2048,
rather than exactly 0.1. -/
theorem c3_schedule_monotone_and_bf16_endpoint (cfg : TrainConfig)
    (hT : 2 ≤ totalSteps cfg) :
    List.Chain' (fun x y => y ≤ x) (setTempValues (trainTrace cfg)) ∧
      (cfg.gradAccumSteps = 1 →
        (setTempValues (trainTrace cfg)).getLast? = some (toBF16 (1/10))) ∧
      toBF16 (1/10) = 205/2048 := by
  refine ⟨pushedTemps_chain cfg hT, ?_, toBF16_tenth⟩
  intro hg
  rw [pushedTemps_getLast cfg hT hg, sched_last cfg hT]

/-- C3 witness: the amended schedule property holds of the concrete
three-step run cfgTempW. -/
theorem c3_schedule_witness :
    2 ≤ totalSteps cfgTempW ∧
      (List.Chain' (fun x y => y ≤ x) (setTempValues (trainTrace cfgTempW)) ∧
        (cfgTempW.gradAccumSteps = 1 →
          (setTempValues (trainTrace cfgTempW)).getLast? = some (toBF16 (1/10))) ∧
        toBF16 (1/10) = 205/2048) := by
  refine ⟨by norm_num [cfgTempW, totalSteps], ?_⟩
  exact c3_schedule_monotone_and_bf16_endpoint cfgTempW (by norm_num [cfgTempW, totalSteps])

/-- C4: prealign_eval on an empty dataloader divides correct_count by
total_count = 0 (trainer.py line 151); the division is unguarded and
raises ZeroDivisionError, contrary to the requirement that the empty
evaluation set must not raise. -/
theorem c4_prealign_empty_raises :
    prealign_eval_accuracy [] = Except.error PyErr.zeroDivisionErr := rfl

/-- C5: when pytorch-rotate-last.bin already exists under the run-identity
directory, run_alignment.py quits right after the skip check: the trace is
exactly directory creation followed by the quit, so the model is never
loaded and no training step runs; when the file is absent the model is
loaded and, with --do_align passed, training runs. -/
theorem c5_skip_on_existing_last_checkpoint (d : Bool) :
    run_alignment_main true d = [RunEvent.mkOutputDirs, RunEvent.skipQuit] ∧
      RunEvent.loadModel ∉ run_alignment_main true d ∧
      RunEvent.trainRun ∉ run_alignment_main true d ∧
      RunEvent.loadModel ∈ run_alignment_main false d ∧
      RunEvent.trainRun ∈ run_alignment_main false true := by
  cases d <;> simp [run_alignment_main]

/-- C6: during a run on the master process, the best checkpoint is saved
at step t exactly when a periodic evaluation runs there and its accuracy
strictly exceeds the best accuracy seen so far (best_eval_acc starts at
-1); after every evaluation pass the model is put back in train mode
(the setTrainMode event follows the evalPass event in the trace); and the
last checkpoint is saved at the end of the run unconditionally. -/
theorem c6_best_and_last_checkpoints (cfg : TrainConfig) (t : ℕ) (a : ℚ)
    (hm : cfg.isMaster = true) :
    (TrainEvent.saveBest t a ∈ trainTrace cfg ↔
      (t < totalSteps cfg ∧ qualEval cfg t = true ∧ a = cfg.devAcc t ∧
        runBest cfg 0 t (-1) < cfg.devAcc t)) ∧
    (TrainEvent.evalPass t a ∈ trainTrace cfg →
      [TrainEvent.evalPass t a, TrainEvent.setTrainMode t].Sublist (trainTrace cfg)) ∧
    TrainEvent.saveLast ∈ trainTrace cfg := by
  refine ⟨mem_saveBest_trainTrace, ?_, ?_⟩
  · intro hmem
    have hsteps : TrainEvent.evalPass t a ∈ trainSteps cfg (totalSteps cfg) 0 (-1) := by
      have h := mem_evalPass_trainTrace.mp hmem
      exact (mem_evalPass_trainSteps (totalSteps cfg) 0 (-1)).mpr
        ⟨Nat.zero_le _, by omega, h.2.1, h.2.2⟩
    have hsub := sublist_evalPass_setTrainMode (totalSteps cfg) 0 (-1) hsteps
    refine hsub.trans ?_
    unfold trainTrace
    exact (List.sublist_append_left _ _).cons _
  · simp [trainTrace, hm]

/-- C6 witness: in cfgEvalW the best checkpoint is saved at step 2 (the
first evaluation, accuracy 2 > -1), train mode is restored after the
evaluation pass, and saveLast ends the run. -/
theorem c6_checkpoints_witness :
    cfgEvalW.isMaster = true ∧
      ((TrainEvent.saveBest 2 2 ∈ trainTrace cfgEvalW ↔
        (2 < totalSteps cfgEvalW ∧ qualEval cfgEvalW 2 = true ∧
          (2 : ℚ) = cfgEvalW.devAcc 2 ∧ runBest cfgEvalW 0 2 (-1) < cfgEvalW.devAcc 2)) ∧
      (TrainEvent.evalPass 2 2 ∈ trainTrace cfgEvalW →
        [TrainEvent.evalPass 2 2, TrainEvent.setTrainMode 2].Sublist (trainTrace cfgEvalW)) ∧
      TrainEvent.saveLast ∈ trainTrace cfgEvalW) :=
  ⟨rfl, c6_best_and_last_checkpoints cfgEvalW 2 2 rfl⟩

/-- C7: the run identity string is a deterministic function of the model
base name, the task name, the seed, and the resolved layer and token
range: two invocations agreeing on those five inputs produce
character-for-character identical run names, whatever their other CLI
arguments or das_config contents. -/
theorem c7_run_name_deterministic (a1 a2 : CliArgs) (d1 d2 : DasConfigModel)
    (hm : a1.model_base_name = a2.model_base_name)
    (ht : a1.task_name = a2.task_name)
    (hs : a1.seed = a2.seed)
    (hl : resolved_layer a1 d1 = resolved_layer a2 d2)
    (h1 : resolved_token_start a1 d1 = resolved_token_start a2 d2)
    (h2 : resolved_token_end a1 d1 = resolved_token_end a2 d2) :
    run_name a1 d1 = run_name a2 d2 := by
  unfold run_name run_name_of
  rw [hm, ht, hs, hl, h1, h2]

/-- First argument record for the C7 witness. -/
def argsW1 : CliArgs :=
  { model_base_name := "alpaca_7b", task_name := "continent_matching_cm", seed := 42,
    layer := 3, token_start := 0, token_end := 2, lr := 1/100, epochs := 10,
    train_batch_size := 128, eval_batch_size := 128, log_step := 10,
    valid_steps := 500, gradient_accumulation_steps := 1,
    n_training_examples := 10000, n_eval_examples := 1000,
    output_dir := "./results_a", model_type := "llama", is_wandb := false }

/-- Second argument record for the C7 witness: same five run-identity
inputs, every other field different. -/
def argsW2 : CliArgs :=
  { model_base_name := "alpaca_7b", task_name := "continent_matching_cm", seed := 42,
    layer := 3, token_start := 0, token_end := 2, lr := 1/2, epochs := 3,
    train_batch_size := 16, eval_batch_size := 8, log_step := 1,
    valid_steps := 7, gradient_accumulation_steps := 4,
    n_training_examples := 55, n_eval_examples := 5,
    output_dir := "./results_b", model_type := "t5", is_wandb := true }

/-- Das config for the C7 witness, first invocation. -/
def dasW1 : DasConfigModel := { das_layer := 7, das_token_start := 4, das_token_end := 9 }

/-- Das config for the C7 witness, second invocation: different stored
values, same resolved values because the CLI overrides win. -/
def dasW2 : DasConfigModel := { das_layer := 11, das_token_start := 1, das_token_end := 6 }

/-- C7 witness: the two concrete invocations agree on the five
run-identity inputs and produce identical run names. -/
theorem c7_run_name_witness :
    (argsW1.model_base_name = argsW2.model_base_name ∧
      argsW1.task_name = argsW2.task_name ∧ argsW1.seed = argsW2.seed ∧
      resolved_layer argsW1 dasW1 = resolved_layer argsW2 dasW2 ∧
      resolved_token_start argsW1 dasW1 = resolved_token_start argsW2 dasW2 ∧
      resolved_token_end argsW1 dasW1 = resolved_token_end argsW2 dasW2) ∧
    run_name argsW1 dasW1 = run_name argsW2 dasW2 := by
  have hm : argsW1.model_base_name = argsW2.model_base_name := rfl
  have ht : argsW1.task_name = argsW2.task_name := rfl
  have hs : argsW1.seed = argsW2.seed := rfl
  have hl : resolved_layer argsW1 dasW1 = resolved_layer argsW2 dasW2 := by
    norm_num [resolved_layer, argsW1, argsW2]
  have h1 : resolved_token_start argsW1 dasW1 = resolved_token_start argsW2 dasW2 := by
    norm_num [resolved_token_start, argsW1, argsW2]
  have h2 : resolved_token_end argsW1 dasW1 = resolved_token_end argsW2 dasW2 := by
    norm_num [resolved_token_end, argsW1, argsW2]
  exact ⟨⟨hm, ht, hs, hl, h1, h2⟩,
    c7_run_name_deterministic argsW1 argsW2 dasW1 dasW2 hm ht hs hl h1 h2⟩

/-- C8: every call of continent1_source_sampler raises
NameError("base_continent2"), in the Yes branch and in the No branch
alike, and _are_same_continent never returns normally for any pair of
countries (it raises NameError("countryt2") when country1 is a known
country, KeyError otherwise). -/
theorem c8_sampler_unbound_names (data : ContinentData) (choice : List String → String)
    (b1 b2 ctf c1 c2 : String) :
    continent1_source_sampler data choice b1 b2 ctf =
        Except.error (PyErr.nameErr "base_continent2") ∧
      ∃ e : PyErr, _are_same_continent data c1 c2 = Except.error e := by
  constructor
  · unfold continent1_source_sampler lookupName
    by_cases h : ctf == _YES_LABEL <;>
      simp [h, List.find?, Bind.bind, Except.bind]
  · unfold _are_same_continent dictGet lookupName
    cases h : data.country_to_continent c1 with
    | none =>
      exact ⟨PyErr.keyErr c1, by simp [h, List.find?, Bind.bind, Except.bind]⟩
    | some v =>
      exact ⟨PyErr.nameErr "countryt2", by simp [h, List.find?, Bind.bind, Except.bind]⟩

/-- C9: the reported accuracy (matching count over total count, rounded)
is invariant under any permutation of the (target, prediction) pairs. -/
theorem c9_accuracy_permutation_invariant {α : Type} (matchFn : α → α → Bool)
    (l1 l2 : List (α × α)) (h : l1.Perm l2) :
    accuracy_of matchFn l1 = accuracy_of matchFn l2 := by
  unfold accuracy_of
  rw [h.length_eq, h.countP_eq]

/-- C9 witness: swapping the two pairs of a concrete batch leaves the
accuracy unchanged. -/
theorem c9_accuracy_witness :
    [((1:ℤ), (1:ℤ)), (2, 3)].Perm [((2:ℤ), (3:ℤ)), (1, 1)] ∧
      accuracy_of (fun a b : ℤ => a == b) [(1, 1), (2, 3)] =
        accuracy_of (fun a b : ℤ => a == b) [(2, 3), (1, 1)] := by
  have hperm : [((1:ℤ), (1:ℤ)), (2, 3)].Perm [((2:ℤ), (3:ℤ)), (1, 1)] :=
    List.Perm.swap ((2:ℤ), (3:ℤ)) ((1:ℤ), (1:ℤ)) []
  exact ⟨hperm, c9_accuracy_permutation_invariant _ _ _ hperm⟩

/-- Helper: overwriting the last entry of a constant list splits it into
the untouched prefix and the new last element. -/
theorem replicate_set_last (x y : ℤ) (n : ℕ) (hn : 0 < n) :
    (List.replicate n x).set (n - 1) y = List.replicate (n - 1) x ++ [y] := by
  obtain ⟨m, rfl⟩ : ∃ m, n = m + 1 := ⟨n - 1, by omega⟩
  simp only [Nat.add_sub_cancel]
  rw [List.replicate_succ', List.set_append_right _ _ (by simp), List.length_replicate]
  simp

/-- C10: for every encoded example whose prompt tokenizes to at most 40
tokens, the labels list has the same length as the padded input_ids list,
that length is 40, every entry except the last is -100, the last entry is
the token id of the target string, and output_only_labels of it is the
one-element list holding that target token id. -/
theorem c10_encoded_labels_shape (tok : TokenizerModel) (input target : String) (i : ℕ)
    (h40 : (tok.tokenize input).length ≤ 40) (hi : i < 39) :
    ((_encode_input_and_target tok input target).2).length =
        ((_encode_input_and_target tok input target).1).length ∧
      ((_encode_input_and_target tok input target).1).length = 40 ∧
      ((_encode_input_and_target tok input target).2)[i]? = some (-100) ∧
      ((_encode_input_and_target tok input target).2)[(39 : ℕ)]? =
        some (tok.convertTokenToId target) ∧
      output_only_labels ((_encode_input_and_target tok input target).2) =
        [tok.convertTokenToId target] := by
  have hlen : (hfPadMaxLength tok 40 input).length = 40 := by
    unfold hfPadMaxLength
    rw [List.length_append, List.length_replicate]
    omega
  have hdec : (_encode_input_and_target tok input target).2 =
      List.replicate 39 (-100 : ℤ) ++ [tok.convertTokenToId target] := by
    unfold _encode_input_and_target
    rw [hlen]
    exact replicate_set_last _ _ 40 (by norm_num)
  refine ⟨?_, hlen, ?_, ?_, ?_⟩
  · unfold _encode_input_and_target
    rw [List.length_set, List.length_replicate]
  · rw [hdec, List.getElem?_append_left (by simp [hi]), List.getElem?_replicate]
    simp [hi]
  · rw [hdec, List.getElem?_append_right (by simp), List.length_replicate]
    simp
  · rw [hdec]
    unfold output_only_labels
    rw [List.length_append, List.length_replicate]
    have h39 : (39 + [tok.convertTokenToId target].length) - 1 = 39 := by simp
    rw [h39]
    exact List.drop_left' (by simp)

/-- Concrete tokenizer for the C10 witness. -/
def tokW : TokenizerModel :=
  { tokenize := fun _ => [5, 6, 7], padTokenId := 0, convertTokenToId := fun _ => 9 }

/-- C10 witness: the encoding shape holds of a concrete prompt under the
concrete tokenizer tokW, checked at interior index 5. -/
theorem c10_encoded_labels_witness :
    ((tokW.tokenize "Are France and Japan on the same continent?").length ≤ 40 ∧
        (5 : ℕ) < 39) ∧
      (((_encode_input_and_target tokW "Are France and Japan on the same continent?" "Yes").2).length =
          ((_encode_input_and_target tokW "Are France and Japan on the same continent?" "Yes").1).length ∧
        ((_encode_input_and_target tokW "Are France and Japan on the same continent?" "Yes").1).length = 40 ∧
        ((_encode_input_and_target tokW "Are France and Japan on the same continent?" "Yes").2)[(5:ℕ)]? = some (-100) ∧
        ((_encode_input_and_target tokW "Are France and Japan on the same continent?" "Yes").2)[(39 : ℕ)]? =
          some (tokW.convertTokenToId "Yes") ∧
        output_only_labels ((_encode_input_and_target tokW "Are France and Japan on the same continent?" "Yes").2) =
          [tokW.convertTokenToId "Yes"]) := by
  refine ⟨⟨by norm_num [tokW], by norm_num⟩, ?_⟩
  exact c10_encoded_labels_shape tokW _ "Yes" 5 (by norm_num [tokW]) (by norm_num)

end AlignTransformers
